import Mathlib

/-!
Verification development for the azureml-assets repository.

Shallow embedding of two source files:

* `scripts/release/asset_publish.py` — asset-URI parsing (Python `re`
  patterns `WORKSPACE_ASSET_PATTERN` and the `REGISTRY_ASSET_TEMPLATE`
  instantiations), dependency-version reconciliation
  (`get_environment_asset_id`, `validate_and_prepare_pipeline_component`,
  `validate_update_component`), and the per-asset publish step of the
  `__main__` loop.

* `.../processors/pyfunc/vision/detection_predict.py` — result
  post-processing (`_normalize_polygon`, `_remove_invalid_segments`,
  `_process_object_detection_results`,
  `_process_instance_segmentation_results`).

External collaborators (the `az` CLI, the registry backend, the model
preparation helpers, cv2 contour extraction) are modelled as explicit
oracle inputs.  Numeric code is modelled over `ℚ`.
-/

namespace AzuremlAssets

/-! ## A backtracking regex matcher

Python's `re` module is a backtracking engine: alternatives are tried
left to right, greedy quantifiers longest-first, and a failure of the
rest of the pattern backtracks into earlier choices.  The patterns in
`asset_publish.py` use only literals, `(.+)` capture groups, `(?:...|...)`
alternation, an optional prefix `(?:azureml:)?` and the `$` anchor, so we
embed exactly those constructs.  `.` in Python matches any character
except a newline; the `(.+)` case checks this.  `re.match` anchors at the
start of the string only, so a pattern without `$` may leave a suffix
unconsumed. -/

inductive RE where
  | lit : List Char → RE
  | grp : Nat → RE
  | seq : RE → RE → RE
  | alt : RE → RE → RE
  | opt : RE → RE
  | eos : RE

/-- Captured groups: most recent binding of an index wins. -/
abbrev Caps := List (Nat × List Char)

def getCap (caps : Caps) (i : Nat) : Option (List Char) :=
  (caps.find? (fun p => p.1 == i)).map (fun p => p.2)

/-- Match a literal against the front of the input, returning the rest. -/
def stripPre : List Char → List Char → Option (List Char)
  | [], inp => some inp
  | _ :: _, [] => none
  | c :: s, d :: inp => if c = d then stripPre s inp else none

/-- One candidate chunk length for a greedy `(.+)` group: take `m`
characters (all of them non-newline, as Python `.` excludes newlines),
record the capture, and run the continuation on the rest. -/
def attemptLen (i : Nat) (inp : List Char) (caps : Caps)
    (k : List Char → Caps → Option Caps) (m : Nat) : Option Caps :=
  if '\n' ∈ inp.take m then none
  else k (inp.drop m) ((i, inp.take m) :: caps)

/-- Greedy search for `(.+)`: try chunk lengths from `fuel` down to 1. -/
def tryLens (i : Nat) (inp : List Char) (caps : Caps)
    (k : List Char → Caps → Option Caps) : Nat → Option Caps
  | 0 => none
  | m + 1 =>
    match attemptLen i inp caps k (m + 1) with
    | some r => some r
    | none => tryLens i inp caps k m

/-- The backtracking matcher in continuation-passing style.  `k` receives
the unconsumed input and the captures accumulated on the current branch;
captures made on a branch that fails are discarded, as in Python. -/
def rmatch : RE → List Char → Caps → (List Char → Caps → Option Caps) → Option Caps
  | .lit s, inp, caps, k =>
    match stripPre s inp with
    | some rest => k rest caps
    | none => none
  | .grp i, inp, caps, k => tryLens i inp caps k inp.length
  | .seq a b, inp, caps, k =>
    rmatch a inp caps (fun rest caps2 => rmatch b rest caps2 k)
  | .alt a b, inp, caps, k =>
    match rmatch a inp caps k with
    | some r => some r
    | none => rmatch b inp caps k
  | .opt a, inp, caps, k =>
    match rmatch a inp caps k with
    | some r => some r
    | none => k inp caps
  | .eos, inp, caps, k =>
    match inp with
    | [] => k inp caps
    | _ :: _ => none

/-- Terminal continuation: the whole pattern matched (`re.match` does not
require the full input to be consumed unless the pattern ends in `$`). -/
def kEnd : List Char → Caps → Option Caps := fun _ caps => some caps

/-- `re.compile(pattern).match(s)`: anchored at the start of `s`. -/
def pymatch (r : RE) (s : String) : Option Caps :=
  rmatch r s.toList [] kEnd

/-! ## The two URI patterns of `asset_publish.py`

`WORKSPACE_ASSET_PATTERN = ^(?:azureml:)?(.+)(?::(.+)|@(.+))$`

`REGISTRY_ASSET_TEMPLATE =
  ^azureml://registries/(.+)/$asset_type/(.+)/(?:versions/(.+)|labels/(.+))`
-/

def WORKSPACE_ASSET_PATTERN : RE :=
  .seq (.opt (.lit "azureml:".toList))
    (.seq (.grp 1)
      (.seq (.alt (.seq (.lit ":".toList) (.grp 2))
                  (.seq (.lit "@".toList) (.grp 3)))
            .eos))

def tailRE : RE :=
  .seq (.lit "/".toList)
    (.alt (.seq (.lit "versions/".toList) (.grp 3))
          (.seq (.lit "labels/".toList) (.grp 4)))

def g2tRE : RE := .seq (.grp 2) tailRE

def regRE (plural : List Char) : RE :=
  .seq (.lit "azureml://registries/".toList)
    (.seq (.grp 1)
      (.seq (.lit ('/' :: plural ++ ['/'])) g2tRE))

/-- `pluralize_asset_type`: append "s" unless the type is "data". -/
def pluralize_asset_type (asset_type : String) : String :=
  if asset_type ≠ "data" then asset_type ++ "s" else asset_type

/-- The compiled `REGISTRY_ASSET_TEMPLATE.substitute(asset_type=...)`
pattern, applied to a URI. -/
def regMatch (asset_type : String) (uri : String) : Option Caps :=
  pymatch (regRE (pluralize_asset_type asset_type).toList) uri

/-- `WORKSPACE_ASSET_PATTERN.match(uri)`. -/
def wsMatch (uri : String) : Option Caps :=
  pymatch WORKSPACE_ASSET_PATTERN uri

/-- Parsed details of an asset URI: name, version, label, registry.
`match.groups()` yields `None` for a group that did not participate. -/
structure ParsedAsset where
  name : String
  version : Option String
  label : Option String
  registry : Option String
deriving DecidableEq, Repr

def capStr (caps : Caps) (i : Nat) : Option String :=
  (getCap caps i).map (fun l => String.mk l)

/-- Group unpacking for a registry-pattern match:
`asset_registry_name, asset_name, asset_version, asset_label = match.groups()`. -/
def regExtract (caps : Caps) : ParsedAsset :=
  ⟨(capStr caps 2).getD "", capStr caps 3, capStr caps 4, capStr caps 1⟩

/-- Group unpacking for a workspace-pattern match:
`asset_name, asset_version, asset_label = match.groups()`; registry `None`. -/
def wsExtract (caps : Caps) : ParsedAsset :=
  ⟨(capStr caps 1).getD "", capStr caps 2, capStr caps 3, none⟩

/-- `get_parsed_details_from_asset_uri`: try the registry pattern, then
the workspace pattern; `none` models the raised exception for a URI
matching neither. -/
def get_parsed_details_from_asset_uri (asset_type : String) (asset_uri : String) :
    Option ParsedAsset :=
  match regMatch asset_type asset_uri with
  | some caps => some (regExtract caps)
  | none =>
    match wsMatch asset_uri with
    | some caps => some (wsExtract caps)
    | none => none

/-- `ASSET_ID_TEMPLATE.substitute(...)`. -/
def ASSET_ID_TEMPLATE (registry_name asset_type asset_name version : String) : String :=
  "azureml://registries/" ++ registry_name ++ "/" ++ asset_type ++ "/" ++
    asset_name ++ "/versions/" ++ version

/-! ## The publishing flow

The script shells out to the `az` CLI (`get_asset_details`,
`get_asset_versions`, `create_asset`) and to model-preparation helpers
from `azureml.assets` (external to this repository).  We model those as
a `Registry` oracle: `details asset_type name version registry_name`
returns the asset's `id` field (the code only uses truthiness and the
`id` key of the returned dictionary), `versions` returns the registry's
version list (newest first, per the API contract), `createOk` is the
exit status of `az ml <type> create`, and `prepareOk` the outcome of
`prepare_model`/`update_spec` for a model. -/

structure Registry where
  details : String → String → String → String → Option String
  versions : String → String → String → List String
  createOk : String → String → String → Bool
  prepareOk : String → Bool

def PROD_SYSTEM_REGISTRY : String := "azureml"

def LATEST_LABEL : String := "latest"

/-- Return value of `get_environment_asset_id`: the Python function
returns `False` on parse/label failures, `None` when no candidate
version resolves, and the asset-id string on success. -/
inductive PyResult where
  | pyFalse
  | pyNone
  | pyStr (s : String)
deriving DecidableEq, Repr

/-- `versions_to_try = [env_version]` plus, when a suffix is configured
(Python truthiness: a non-empty string), the suffix-appended variant. -/
def versionsToTry (version : String) (version_suffix : String) : List String :=
  if version_suffix.isEmpty then [version]
  else [version, version ++ "-" ++ version_suffix]

/-- `get_environment_asset_id(environment_id, version_suffix, registry_name)`. -/
def get_environment_asset_id (o : Registry) (environment_id : String)
    (version_suffix : String) (registry_name : String) : PyResult :=
  match get_parsed_details_from_asset_uri "environment" environment_id with
  | none => .pyFalse
  | some pa =>
    let registry_name := (pa.registry).getD registry_name
    match pa.label with
    | some lbl =>
      if lbl = LATEST_LABEL then
        match o.versions "environment" pa.name registry_name with
        | [] => .pyFalse
        | v :: _ =>
          match (versionsToTry v version_suffix).findSome?
              (fun ver => o.details "environment" pa.name ver registry_name) with
          | some id => .pyStr id
          | none => .pyNone
      else .pyFalse
    | none =>
      match pa.version with
      | none => .pyNone
      | some v =>
        match (versionsToTry v version_suffix).findSome?
            (fun ver => o.details "environment" pa.name ver registry_name) with
        | some id => .pyStr id
        | none => .pyNone

/-- A value written into the `environment` field of a component spec.
Because of the `False` return of `get_environment_asset_id`, the field
can end up holding a boolean. -/
inductive EnvField where
  | ofStr (s : String)
  | ofBool (b : Bool)
deriving DecidableEq, Repr

/-- A command/parallel component spec as loaded from YAML: the
environment reference sits either at the top level or under `task`.
`task = some e` models a `task` block whose `environment` entry is `e`
(or absent). -/
structure ComponentSpecIn where
  name : String
  environment : Option String
  task : Option (Option String)
deriving DecidableEq, Repr

/-- The component spec as dumped back by `util.dump_yaml`. -/
structure ComponentSpecOut where
  name : String
  environment : Option EnvField
  task : Option (Option EnvField)
deriving DecidableEq, Repr

def componentSpecOutOfIn (d : ComponentSpecIn) : ComponentSpecOut :=
  ⟨d.name, d.environment.map EnvField.ofStr, d.task.map (fun t => t.map EnvField.ofStr)⟩

def setTopEnv (d : ComponentSpecIn) (v : EnvField) : ComponentSpecOut :=
  ⟨d.name, some v, d.task.map (fun t => t.map EnvField.ofStr)⟩

def setTaskEnv (d : ComponentSpecIn) (v : EnvField) : ComponentSpecOut :=
  ⟨d.name, d.environment.map EnvField.ofStr, some (some v)⟩

/-- `validate_update_component`: returns the Python boolean result
together with the content written to the spec file (`none` when the file
is not rewritten; on the success path `util.dump_yaml` always runs). -/
def validate_update_component (o : Registry) (d : ComponentSpecIn)
    (version_suffix : String) (registry_name : String) :
    Bool × Option ComponentSpecOut :=
  match d.environment with
  | some current_env_id =>
    match get_environment_asset_id o current_env_id version_suffix registry_name with
    | .pyNone => (false, none)
    | .pyFalse => (true, some (setTopEnv d (.ofBool false)))
    | .pyStr id => (true, some (setTopEnv d (.ofStr id)))
  | none =>
    match d.task with
    | some (some current_env_id) =>
      match get_environment_asset_id o current_env_id version_suffix registry_name with
      | .pyNone => (false, none)
      | .pyFalse => (true, some (setTaskEnv d (.ofBool false)))
      | .pyStr id => (true, some (setTaskEnv d (.ofStr id)))
    | _ => (false, none)

/-- One job of a pipeline component spec; `component` is the value of
the `component` key when present (`some ""` models an explicit empty
string, which Python's `.get('component')` treats as falsy too). -/
structure PipeJob where
  component : Option String
deriving DecidableEq, Repr

structure PipelineSpecIn where
  name : String
  jobs : List (String × PipeJob)
deriving DecidableEq, Repr

/-- Result of the per-job loop of
`validate_and_prepare_pipeline_component`: the rewritten jobs on
success, `failed` for a `return False`, `crashed` for the uncaught
`TypeError` raised when a label-form component reference leaves
`version = None`. -/
inductive PipeLoopRes where
  | done (jobs : List (String × PipeJob))
  | failed
  | crashed
deriving DecidableEq, Repr

/-- The job loop.  Note the reassignment
`registry_name = registry or registry_name` in the source: the loop
variable is the function parameter, so a registry parsed from one job's
URI persists for subsequent jobs. -/
def pipeLoop (o : Registry) (version_suffix : String) :
    List (String × PipeJob) → String → List (String × PipeJob) → PipeLoopRes
  | [], _, acc => .done acc
  | (job_name, job_details) :: rest, registry_name, acc =>
    match job_details.component with
    | none => pipeLoop o version_suffix rest registry_name (acc ++ [(job_name, job_details)])
    | some c =>
      if c = "" then
        pipeLoop o version_suffix rest registry_name (acc ++ [(job_name, job_details)])
      else
        match get_parsed_details_from_asset_uri "component" c with
        | none => .failed
        | some pa =>
          let registry_name := (pa.registry).getD registry_name
          match pa.version with
          | none => .crashed
          | some version =>
            match (versionsToTry version version_suffix).findSome?
                (fun ver => o.details "component" pa.name ver registry_name) with
            | none => .failed
            | some id =>
              pipeLoop o version_suffix rest registry_name
                (acc ++ [(job_name, ⟨some id⟩)])

/-- Outcome of `validate_and_prepare_pipeline_component`: on success the
spec file is rewritten with the updated jobs; on failure the function
returns `False` before `util.dump_yaml` runs, so the file is untouched. -/
inductive PipeOutcome where
  | success (written : PipelineSpecIn)
  | failure
  | crash
deriving DecidableEq, Repr

def validate_and_prepare_pipeline_component (o : Registry) (d : PipelineSpecIn)
    (version_suffix : String) (registry_name : String) : PipeOutcome :=
  match pipeLoop o version_suffix d.jobs registry_name [] with
  | .done updated_jobs => .success ⟨d.name, updated_jobs⟩
  | .failed => .failure
  | .crashed => .crash

/-! ## The per-asset step of the `__main__` publishing loop -/

inductive AssetType where
  | data
  | environment
  | component
  | model
deriving DecidableEq, Repr

def AssetType.value : AssetType → String
  | .data => "data"
  | .environment => "environment"
  | .component => "component"
  | .model => "model"

/-- The spec payload relevant to the per-asset step: component and
pipeline specs are inspected and rewritten; other payloads are opaque. -/
inductive AssetSpec where
  | componentSpec (d : ComponentSpecIn)
  | pipelineSpec (d : PipelineSpecIn)
  | otherSpec
deriving DecidableEq, Repr

structure AssetCfg where
  type : AssetType
  name : String
  version : String
  componentType : Option String
  spec : AssetSpec
deriving DecidableEq, Repr

/-- `final_version = asset.version + "-" + passed_version if passed_version
else asset.version`. -/
def finalVersion (version : String) (passed_version : String) : String :=
  if passed_version.isEmpty then version else version ++ "-" ++ passed_version

structure CreateCmd where
  assetType : String
  registry : String
  version : String
deriving DecidableEq, Repr

inductive SpecWritten where
  | componentW (d : ComponentSpecOut)
  | pipelineW (d : PipelineSpecIn)
  | modelW
deriving DecidableEq, Repr

/-- Observable outcome of processing one asset in the main loop. -/
structure AssetStepResult where
  skipped : Bool
  metadataUpdated : Bool
  assetIdRecorded : Option String
  failedValidation : Bool
  createCmd : Option CreateCmd
  createFailed : Bool
  specWritten : Option SpecWritten
deriving DecidableEq, Repr

inductive AssetStepOutcome where
  | ok (r : AssetStepResult)
  | crash
deriving DecidableEq, Repr

def skippedResult : AssetStepResult := ⟨true, false, none, false, none, false, none⟩

/-- `create_asset`: issue `az ml <type> create --version <version>`; a
non-zero exit appends the asset to the failure list. -/
def createStep (o : Registry) (asset : AssetCfg) (registry_name version : String)
    (assetId : String) (w : Option SpecWritten) : AssetStepResult :=
  ⟨false, false, some assetId, false,
   some ⟨asset.type.value, registry_name, version⟩,
   ! (o.createOk asset.type.value asset.name version), w⟩

/-- The body of the per-asset iteration of the `__main__` loop
(lines 601-664 of `asset_publish.py`). -/
def processAsset (o : Registry) (create_list : AssetType → List String)
    (registry_name : String) (passed_version : String) (asset : AssetCfg) :
    AssetStepOutcome :=
  let asset_names := create_list asset.type
  if ¬ ("*" ∈ asset_names ∨ asset.name ∈ asset_names) then .ok skippedResult
  else
    let final_version := finalVersion asset.version passed_version
    let assetId := ASSET_ID_TEMPLATE registry_name
      (pluralize_asset_type asset.type.value) asset.name final_version
    if (o.details asset.type.value asset.name asset.version registry_name).isSome then
      .ok ⟨false, true, some assetId, false, none, false, none⟩
    else if asset.type = .component then
      if asset.componentType = some "pipeline" then
        match asset.spec with
        | .pipelineSpec d =>
          match validate_and_prepare_pipeline_component o d passed_version registry_name with
          | .success w => .ok (createStep o asset registry_name final_version assetId
              (some (.pipelineW w)))
          | .failure => .ok ⟨false, false, some assetId, true, none, false, none⟩
          | .crash => .crash
        | _ => .crash
      else if asset.componentType = none ∨ asset.componentType = some "command" ∨
          asset.componentType = some "parallel" then
        match asset.spec with
        | .componentSpec d =>
          match validate_update_component o d passed_version registry_name with
          | (true, w) => .ok (createStep o asset registry_name final_version assetId
              (w.map SpecWritten.componentW))
          | (false, _) => .ok ⟨false, false, some assetId, true, none, false, none⟩
        | _ => .crash
      else .ok (createStep o asset registry_name final_version assetId none)
    else if asset.type = .model then
      if o.prepareOk asset.name then
        .ok (createStep o asset registry_name asset.version assetId (some .modelW))
      else .ok ⟨false, false, some assetId, true, none, false, none⟩
    else .ok (createStep o asset registry_name final_version assetId none)

/-! ## Detection post-processing (`detection_predict.py`)

Raw detector outputs are external inputs: for object detection a
per-class list of 5-value rows `(x0, y0, x1, y1, score)`; for instance
segmentation additionally, per detection, the contours produced by
mmdet's `bitmap_to_polygon` (external cv2 code), each contour being a
list of `(x, y)` points.  `image_size` is PIL's `(width, height)`.
Floating-point arithmetic is modelled over `ℚ`. -/

structure RawBox where
  x0 : ℚ
  y0 : ℚ
  x1 : ℚ
  y1 : ℚ
  score : ℚ
deriving DecidableEq, Repr

structure ODBox where
  topX : ℚ
  topY : ℚ
  bottomX : ℚ
  bottomY : ℚ
  label : String
  score : ℚ
deriving DecidableEq, Repr

/-- `np.vstack(result)` paired with `np.concatenate(labels)` where
`labels[i]` repeats the class index `i` once per row of `result[i]`:
the flattened per-class rows, each tagged with its class index. -/
def flattenByClass {α : Type} (result : List (List α)) : List (Nat × α) :=
  (result.enum.map (fun p => p.2.map (fun b => (p.1, b)))).flatten

/-- `_process_object_detection_results`, one image: each box is divided
coordinate-wise by the image width/height, with no clamping. -/
def process_object_detection_single (classes : Nat → String)
    (result : List (List RawBox)) (image_size : ℚ × ℚ) : List ODBox :=
  (flattenByClass result).map (fun p =>
    ⟨p.2.x0 / image_size.1, p.2.y0 / image_size.2,
     p.2.x1 / image_size.1, p.2.y1 / image_size.2,
     classes p.1, p.2.score⟩)

def process_object_detection_results (classes : Nat → String)
    (results : List (List (List RawBox))) (image_sizes : List (ℚ × ℚ)) :
    List (List ODBox) :=
  (results.zip image_sizes).map
    (fun p => process_object_detection_single classes p.1 p.2)

/-- `_normalize_polygon`: each contour (a list of points) becomes a flat
list `x0, y0, x1, y1, ...` of coordinates divided by width/height. -/
def normalize_polygon (polygon : List (List (ℚ × ℚ))) (image_size : ℚ × ℚ) :
    List (List ℚ) :=
  polygon.map (fun points =>
    (points.map (fun q => [q.1 / image_size.1, q.2 / image_size.2])).flatten)

/-- `_remove_invalid_segments`: keep segments with `len(segment) >= 6`.
A segment here is a contour, i.e. a list of `(x, y)` points, so `len`
counts points (the docstring speaks of 6 *coordinates*). -/
def remove_invalid_segments (polygon : List (List (ℚ × ℚ))) :
    List (List (ℚ × ℚ)) :=
  polygon.filter (fun segment => decide (6 ≤ segment.length))

structure ISBox where
  topX : ℚ
  topY : ℚ
  bottomX : ℚ
  bottomY : ℚ
  label : String
  score : ℚ
  polygon : List (List ℚ)
deriving DecidableEq, Repr

/-- `_process_instance_segmentation_results`, one image: each detection
is a raw box paired with its mask's contours; contours are filtered by
`_remove_invalid_segments` and the detection is kept only when some
contour survives. -/
def process_instance_segmentation_single (classes : Nat → String)
    (dets : List (List (RawBox × List (List (ℚ × ℚ))))) (image_size : ℚ × ℚ) :
    List ISBox :=
  (flattenByClass dets).filterMap (fun p =>
    let polygon := remove_invalid_segments p.2.2
    if 0 < polygon.length then
      some ⟨p.2.1.x0 / image_size.1, p.2.1.y0 / image_size.2,
            p.2.1.x1 / image_size.1, p.2.1.y1 / image_size.2,
            classes p.1, p.2.1.score, normalize_polygon polygon image_size⟩
    else none)

def process_instance_segmentation_results (classes : Nat → String)
    (batch : List (List (List (RawBox × List (List (ℚ × ℚ)))))) (image_sizes : List (ℚ × ℚ)) :
    List (List ISBox) :=
  (batch.zip image_sizes).map
    (fun p => process_instance_segmentation_single classes p.1 p.2)

/-! ## Concrete fixtures used by counterexamples and witnesses -/

/-- A registry in which no asset exists, every create succeeds and model
preparation succeeds. -/
def oEmpty : Registry :=
  ⟨fun _ _ _ _ => none, fun _ _ _ => [], fun _ _ _ => true, fun _ => true⟩

/-- Create list selecting every asset of every type. -/
def clAll : AssetType → List String := fun _ => ["*"]

/-- An asset whose component spec references environment `myenv@prod`
(label `prod`, which is not `latest`). -/
def cfgLabelled : AssetCfg :=
  ⟨.component, "c", "1", none, .componentSpec ⟨"c", some "myenv@prod", none⟩⟩

/-- Registry for the pipeline registry-leak counterexample: component
`c1` version 1 exists only in registry `azureml`; component `c2`
version 1 exists only in the target registry `tgt`. -/
def oLeak : Registry :=
  ⟨fun t n v r =>
    if t = "component" ∧ n = "c1" ∧ v = "1" ∧ r = "azureml" then some "id1"
    else if t = "component" ∧ n = "c2" ∧ v = "1" ∧ r = "tgt" then some "id2"
    else none,
   fun _ _ _ => [], fun _ _ _ => true, fun _ => true⟩

/-- Two-job pipeline: the first job names its dependency through a
cross-registry URI (registry `azureml`), the second through a short
workspace-form URI with no registry. -/
def pipeLeak : PipelineSpecIn :=
  ⟨"p", [("j1", ⟨some "azureml://registries/azureml/components/c1/versions/1"⟩),
         ("j2", ⟨some "c2:1"⟩)]⟩

/-- Registry for the version-order counterexample: environment `e`
exists at the bare version 1 (id A) and at the suffixed version 1-s
(id B). -/
def oBoth : Registry :=
  ⟨fun t n v r =>
    if t = "environment" ∧ n = "e" ∧ v = "1" ∧ r = "r" then some "A"
    else if t = "environment" ∧ n = "e" ∧ v = "1-s" ∧ r = "r" then some "B"
    else none,
   fun _ _ _ => [], fun _ _ _ => true, fun _ => true⟩

/-- Registry in which every lookup succeeds with id `xid`. -/
def oAll : Registry :=
  ⟨fun _ _ _ _ => some "xid", fun _ _ _ => ["9"], fun _ _ _ => true, fun _ => true⟩

/-- One-job pipeline whose dependency `c:1` exists nowhere. -/
def pipeMissing : PipelineSpecIn := ⟨"p", [("j", ⟨some "c:1"⟩)]⟩

def cfgPipeMissing : AssetCfg :=
  ⟨.component, "pc", "1", some "pipeline", .pipelineSpec pipeMissing⟩

def cfgModel : AssetCfg := ⟨.model, "m", "3", none, .otherSpec⟩

def cfgData : AssetCfg := ⟨.data, "d", "2", none, .otherSpec⟩

/-- A triangle contour: 3 points, hence 6 coordinates. -/
def triangleSegment : List (ℚ × ℚ) := [(0, 0), (4, 0), (0, 4)]

/-- Raw detector coordinates lying within the image. -/
def rawBoxInBounds (b : RawBox) (w h : ℚ) : Prop :=
  0 ≤ b.x0 ∧ b.x0 ≤ w ∧ 0 ≤ b.y0 ∧ b.y0 ≤ h ∧
  0 ≤ b.x1 ∧ b.x1 ≤ w ∧ 0 ≤ b.y1 ∧ b.y1 ≤ h

/-- All points of a contour lying within the image. -/
def pointsInBounds (seg : List (ℚ × ℚ)) (w h : ℚ) : Prop :=
  ∀ q ∈ seg, 0 ≤ q.1 ∧ q.1 ≤ w ∧ 0 ≤ q.2 ∧ q.2 ≤ h

def unitInterval01 (c : ℚ) : Prop := 0 ≤ c ∧ c ≤ 1

def odBoxNormalized (b : ODBox) : Prop :=
  unitInterval01 b.topX ∧ unitInterval01 b.topY ∧
  unitInterval01 b.bottomX ∧ unitInterval01 b.bottomY

/-! ## Theorems -/

/-- Claim C1: for an environment reference whose parsed label is present
and is not `latest`, the claim says resolution fails explicitly and the
asset's publish attempt is aborted — recorded as failed, spec not
rewritten, no creation command.  The code contradicts its own docstring
(`:return: ... else None`): `get_environment_asset_id` returns `False`,
the caller's `is not None` check accepts it, the spec is rewritten with
`environment: false`, the function reports success, and the creation
command is issued. -/
theorem c1_label_resolution_code_bug :
    get_environment_asset_id oEmpty "myenv@prod" "" "r" = .pyFalse ∧
    validate_update_component oEmpty ⟨"c", some "myenv@prod", none⟩ "" "r" =
      (true, some ⟨"c", some (.ofBool false), none⟩) ∧
    processAsset oEmpty clAll "r" "" cfgLabelled =
      .ok ⟨false, false, some "azureml://registries/r/components/c/versions/1", false,
           some ⟨"component", "r", "1"⟩, false,
           some (.componentW ⟨"c", some (.ofBool false), none⟩)⟩ := by decide

/-- Claim C2, counterexample: the two shapes are not mutually exclusive —
a long-form registry URI also matches the workspace pattern (as the name
`azureml` with the remainder as version), so it is false that exactly one
of the two shapes matches any valid URI. -/
theorem c2_counterexample :
    (regMatch "environment" "azureml://registries/r/environments/e/versions/1").isSome
      = true ∧
    (wsMatch "azureml://registries/r/environments/e/versions/1").isSome = true ∧
    (wsMatch "azureml://registries/r/environments/e/versions/1").map wsExtract =
      some ⟨"azureml", some "//registries/r/environments/e/versions/1", none, none⟩ := by
  decide

/-- Claim C3, counterexample: the registry parsed from one job's URI
persists for subsequent jobs (`registry_name = registry or registry_name`
reassigns the loop variable).  Here job `j2`'s dependency `c2:1` exists
in the target registry `tgt`, and each dependency resolves in the
registry the claim designates for it, yet the pipeline publish fails
because `c2` is looked up in `azureml`, the registry leaked from job
`j1`. -/
theorem c3_counterexample :
    validate_and_prepare_pipeline_component oLeak pipeLeak "" "tgt" = .failure ∧
    oLeak.details "component" "c2" "1" "tgt" = some "id2" ∧
    oLeak.details "component" "c1" "1" "azureml" = some "id1" := by decide

/-- Claim C4, counterexample: the claim says the suffixed variant is
tried before falling back to the bare version.  With environment `e`
present at both the bare version 1 (id A) and the suffixed version 1-s
(id B), the reconciler returns A: the bare version is tried first. -/
theorem c4_counterexample :
    get_environment_asset_id oBoth "e:1" "s" "r" = .pyStr "A" ∧
    oBoth.details "environment" "e" "1-s" "r" = some "B" ∧
    ("A" : String) ≠ "B" := by decide

/-- Claim C5, counterexample: the round trip fails for a version
containing a slash.  The ID built for name `n`, version `1/versions/2`
parses back — greedily — as name `n/versions/1`, version `2`. -/
theorem c5_counterexample :
    get_parsed_details_from_asset_uri "environment"
        (ASSET_ID_TEMPLATE "r" (pluralize_asset_type "environment") "n" "1/versions/2") =
      some ⟨"n/versions/1", some "2", none, some "r"⟩ ∧
    ("n/versions/1" : String) ≠ "n" := by decide

/-- Claim C8, counterexample: output coordinates are the raw detector
values divided by width/height with no clamping, so a raw box lying
outside the image produces coordinates outside `[0, 1]` — here
`top_x = 20/10 = 2` and `top_y = -5/10`. -/
theorem c8_counterexample :
    process_object_detection_single (fun _ => "cat")
        [[⟨20, -5, 30, 5, 9/10⟩]] (10, 10) =
      [⟨2, -1/2, 3, 1/2, "cat", 9/10⟩] ∧
    ¬ ((2 : ℚ) ≤ 1) ∧ ¬ ((0 : ℚ) ≤ -1/2) := by
  refine ⟨?_, by norm_num, by norm_num⟩
  simp [process_object_detection_single, flattenByClass]
  norm_num

/-- Claim C2, amended: the two shapes are not mutually exclusive; the
resolver gives the long-form registry shape priority and falls back to
the short workspace-local shape, and a URI matching neither shape makes
resolution fail with a parse error. -/
theorem c2_shapes_priority (asset_type uri : String) :
    (get_parsed_details_from_asset_uri asset_type uri = none ↔
      regMatch asset_type uri = none ∧ wsMatch uri = none) ∧
    (∀ caps, regMatch asset_type uri = some caps →
      get_parsed_details_from_asset_uri asset_type uri = some (regExtract caps)) ∧
    (∀ caps, regMatch asset_type uri = none → wsMatch uri = some caps →
      get_parsed_details_from_asset_uri asset_type uri = some (wsExtract caps)) := by
  unfold get_parsed_details_from_asset_uri
  rcases h1 : regMatch asset_type uri with _ | caps1 <;>
    rcases h2 : wsMatch uri with _ | caps2 <;> simp

/-- Witness for C2's amended theorem at a concrete URI matching the
registry shape. -/
theorem c2_shapes_priority_witness :
    get_parsed_details_from_asset_uri "environment"
        "azureml://registries/r/environments/e/versions/1" =
      some (regExtract [(3, "1".toList), (2, "e".toList), (1, "r".toList)]) :=
  (c2_shapes_priority "environment"
    "azureml://registries/r/environments/e/versions/1").2.1 _ (by decide)

/-- Claim C3, amended: candidate versions are checked in order — the
bare resolved version first, then (only when a suffix is configured) the
suffix-appended variant; each candidate is queried against the
dependency's own registry when its URI names one, and otherwise against
the registry used for the previous dependency of the same pipeline spec
(initially the target registry), because the registry override persists
across the job loop; the first candidate that resolves wins, and when
none resolves the dependent asset is treated as unpublishable. -/
theorem c3_candidate_resolution (o : Registry) (version_suffix : String) :
    (∀ uri registry_name name v regOpt,
      get_parsed_details_from_asset_uri "environment" uri =
          some ⟨name, some v, none, regOpt⟩ →
      get_environment_asset_id o uri version_suffix registry_name =
        match (versionsToTry v version_suffix).findSome?
            (fun ver => o.details "environment" name ver (regOpt.getD registry_name)) with
        | some id => .pyStr id
        | none => .pyNone) ∧
    (∀ job_name job_details rest registry_name acc c name v lbl regOpt,
      job_details.component = some c → c ≠ "" →
      get_parsed_details_from_asset_uri "component" c =
        some ⟨name, some v, lbl, regOpt⟩ →
      pipeLoop o version_suffix ((job_name, job_details) :: rest) registry_name acc =
        match (versionsToTry v version_suffix).findSome?
            (fun ver => o.details "component" name ver (regOpt.getD registry_name)) with
        | some id => pipeLoop o version_suffix rest (regOpt.getD registry_name)
            (acc ++ [(job_name, ⟨some id⟩)])
        | none => .failed) := by
  constructor
  · intro uri registry_name name v regOpt hp
    unfold get_environment_asset_id
    rw [hp]
  · intro job_name job_details rest registry_name acc c name v lbl regOpt hc hne hp
    rcases hF : (versionsToTry v version_suffix).findSome?
        (fun ver => o.details "component" name ver (regOpt.getD registry_name)) with _ | id
    · conv_lhs => rw [pipeLoop]
      simp [hc, hne, hp, hF]
    · conv_lhs => rw [pipeLoop]
      simp [hc, hne, hp, hF]

/-- Witness for C3's amended theorem: job `j2` of the leak fixture,
processed with the registry `azureml` inherited from job `j1`, fails
even though its dependency exists in the target registry. -/
theorem c3_candidate_resolution_witness :
    pipeLoop oLeak "" [("j2", ⟨some "c2:1"⟩)] "azureml" [] = .failed := by
  rw [(c3_candidate_resolution oLeak "").2 "j2" ⟨some "c2:1"⟩ [] "azureml" []
    "c2:1" "c2" "1" none none rfl (by decide) (by decide)]
  decide

/-- Claim C4, amended: asset version strings are never mutated in place —
the suffixed variant is computed as a new value, and it is tried only
after the bare version: the bare resolved version is checked first and
wins whenever it resolves; the suffixed variant is the fallback. -/
theorem c4_bare_version_first (o : Registry)
    (uri version_suffix registry_name name v : String) (regOpt : Option String)
    (hp : get_parsed_details_from_asset_uri "environment" uri =
      some ⟨name, some v, none, regOpt⟩) :
    (∀ id, o.details "environment" name v (regOpt.getD registry_name) = some id →
      get_environment_asset_id o uri version_suffix registry_name = .pyStr id) ∧
    (∀ id, o.details "environment" name v (regOpt.getD registry_name) = none →
      ¬ version_suffix.isEmpty →
      o.details "environment" name (v ++ "-" ++ version_suffix)
        (regOpt.getD registry_name) = some id →
      get_environment_asset_id o uri version_suffix registry_name = .pyStr id) := by
  unfold get_environment_asset_id
  rw [hp]
  constructor
  · intro id hd
    rcases hs : version_suffix.isEmpty <;>
      simp [versionsToTry, hs, List.findSome?_cons, hd]
  · intro id hd0 hs hd1
    simp only [Bool.not_eq_true] at hs
    rw [Bool.eq_false_iff] at hs
    simp [versionsToTry, hs, List.findSome?_cons, hd0, hd1]

/-- Witness for C4's amended theorem: with every lookup succeeding, the
bare version's id is returned. -/
theorem c4_bare_version_first_witness :
    get_environment_asset_id oAll "e:1" "s" "r" = .pyStr "xid" :=
  (c4_bare_version_first oAll "e:1" "s" "r" "e" "1" none (by decide)).1 "xid" rfl

/-- Claim C7: an asset selected by the create list that already exists
in the target registry at its bare (unsuffixed) version is not created:
only the metadata-update step runs, no creation command is issued and no
spec rewrite happens; moreover the step's outcome is unchanged under any
other registry oracle in which the bare version also exists, so no
dependency resolution consults the registry. -/
theorem c7_existing_asset_skips_creation (o : Registry)
    (create_list : AssetType → List String) (registry_name passed_version : String)
    (asset : AssetCfg) (id : String)
    (hin : "*" ∈ create_list asset.type ∨ asset.name ∈ create_list asset.type)
    (hex : o.details asset.type.value asset.name asset.version registry_name = some id) :
    processAsset o create_list registry_name passed_version asset =
      .ok ⟨false, true,
        some (ASSET_ID_TEMPLATE registry_name (pluralize_asset_type asset.type.value)
          asset.name (finalVersion asset.version passed_version)),
        false, none, false, none⟩ ∧
    (∀ o2 : Registry,
      (o2.details asset.type.value asset.name asset.version registry_name).isSome →
      processAsset o2 create_list registry_name passed_version asset =
        processAsset o create_list registry_name passed_version asset) := by
  constructor
  · unfold processAsset
    simp [hin, hex]
  · intro o2 h2
    unfold processAsset
    simp [hin, hex, h2]

/-- Witness for C7 at a concrete pre-existing data asset. -/
theorem c7_existing_asset_skips_creation_witness :
    processAsset oAll clAll "r" "sfx" cfgData =
      .ok ⟨false, true,
        some (ASSET_ID_TEMPLATE "r" (pluralize_asset_type (AssetType.data).value)
          "d" (finalVersion "2" "sfx")),
        false, none, false, none⟩ :=
  (c7_existing_asset_skips_creation oAll clAll "r" "sfx" cfgData "xid"
    (Or.inl (by decide)) rfl).1

/-- Claim C10: a model asset that does not pre-exist and is successfully
prepared is created with its bare spec version — the configured suffix
is never applied to the model's published version — while the asset ID
recorded for test-file rewriting is built with the suffixed version. -/
theorem c10_model_bare_version (o : Registry)
    (create_list : AssetType → List String) (registry_name passed_version : String)
    (asset : AssetCfg)
    (htype : asset.type = .model)
    (hin : "*" ∈ create_list asset.type ∨ asset.name ∈ create_list asset.type)
    (hnex : o.details "model" asset.name asset.version registry_name = none)
    (hprep : o.prepareOk asset.name = true)
    (hsfx : ¬ passed_version.isEmpty) :
    processAsset o create_list registry_name passed_version asset =
      .ok ⟨false, false,
        some (ASSET_ID_TEMPLATE registry_name "models" asset.name
          (asset.version ++ "-" ++ passed_version)),
        false, some ⟨"model", registry_name, asset.version⟩,
        ! (o.createOk "model" asset.name asset.version), some .modelW⟩ := by
  obtain ⟨t, n, v, ct, sp⟩ := asset
  simp only at htype hin hnex hprep
  subst htype
  simp only [Bool.not_eq_true] at hsfx
  rw [Bool.eq_false_iff] at hsfx
  unfold processAsset
  simp [hin, hnex, hprep, createStep, finalVersion, hsfx, AssetType.value,
    pluralize_asset_type]

/-- Witness for C10 at a concrete model asset. -/
theorem c10_model_bare_version_witness :
    processAsset oEmpty clAll "r" "sfx" cfgModel =
      .ok ⟨false, false,
        some (ASSET_ID_TEMPLATE "r" "models" "m" ("3" ++ "-" ++ "sfx")),
        false, some ⟨"model", "r", "3"⟩,
        ! (oEmpty.createOk "model" "m" "3"), some .modelW⟩ :=
  c10_model_bare_version oEmpty clAll "r" "sfx" cfgModel rfl
    (Or.inl (by decide)) rfl rfl (by decide)

/-- Helper for claim C6: if every job of the list that carries a
component reference parses to a concrete version (no label forms, which
would crash), and some job's dependency resolves at no tried version in
any registry, the job loop returns `failed` — before any output is
produced. -/
theorem pipeLoop_fails (o : Registry) (version_suffix : String) :
    ∀ (jobs : List (String × PipeJob)) (registry_name : String)
      (acc : List (String × PipeJob)),
    (∀ jn jd c, (jn, jd) ∈ jobs → jd.component = some c → c ≠ "" →
      ∀ pa, get_parsed_details_from_asset_uri "component" c = some pa →
        pa.version.isSome) →
    (∃ jn jd c pa v, (jn, jd) ∈ jobs ∧ jd.component = some c ∧ c ≠ "" ∧
      get_parsed_details_from_asset_uri "component" c = some pa ∧
      pa.version = some v ∧
      ∀ r ver, ver ∈ versionsToTry v version_suffix →
        o.details "component" pa.name ver r = none) →
    pipeLoop o version_suffix jobs registry_name acc = .failed := by
  intro jobs
  induction jobs with
  | nil =>
    intro registry_name acc _ h2
    rcases h2 with ⟨_, _, _, _, _, h, _⟩
    exact absurd h (List.not_mem_nil _)
  | cons hd rest ih =>
    obtain ⟨jn0, jd0⟩ := hd
    intro registry_name acc h1 h2
    have h1r : ∀ jn jd c, (jn, jd) ∈ rest → jd.component = some c → c ≠ "" →
        ∀ pa, get_parsed_details_from_asset_uri "component" c = some pa →
          pa.version.isSome :=
      fun jn jd c hm => h1 jn jd c (List.mem_cons_of_mem _ hm)
    rcases hc : jd0.component with _ | c0
    · conv_lhs => rw [pipeLoop]
      simp only [hc]
      refine ih registry_name _ h1r ?_
      rcases h2 with ⟨jn, jd, c, pa, v, hmem, hcomp, hrest⟩
      rcases List.mem_cons.mp hmem with heq | hmem2
      · rw [Prod.mk.injEq] at heq
        rw [heq.2] at hcomp
        rw [hc] at hcomp
        exact absurd hcomp (by simp)
      · exact ⟨jn, jd, c, pa, v, hmem2, hcomp, hrest⟩
    · by_cases he : c0 = ""
      · conv_lhs => rw [pipeLoop]
        simp only [hc]
        rw [if_pos he]
        refine ih registry_name _ h1r ?_
        rcases h2 with ⟨jn, jd, c, pa, v, hmem, hcomp, hne, hrest⟩
        rcases List.mem_cons.mp hmem with heq | hmem2
        · rw [Prod.mk.injEq] at heq
          rw [heq.2] at hcomp
          rw [hc] at hcomp
          rw [Option.some.injEq] at hcomp
          exact absurd (hcomp ▸ he) hne
        · exact ⟨jn, jd, c, pa, v, hmem2, hcomp, hne, hrest⟩
      · rcases hp : get_parsed_details_from_asset_uri "component" c0 with _ | pa0
        · conv_lhs => rw [pipeLoop]
          simp [hc, he, hp]
        · have hv0 : pa0.version.isSome :=
            h1 jn0 jd0 c0 (List.mem_cons_self _ _) hc he pa0 hp
          rcases hver : pa0.version with _ | v0
          · rw [hver] at hv0; exact absurd hv0 (by simp)
          rcases hF : (versionsToTry v0 version_suffix).findSome?
              (fun ver => o.details "component" pa0.name ver
                (pa0.registry.getD registry_name)) with _ | id
          · conv_lhs => rw [pipeLoop]
            simp [hc, he, hp, hver, hF]
          · conv_lhs => rw [pipeLoop]
            simp only [hc, hp, hver, hF, if_neg he]
            refine ih _ _ h1r ?_
            rcases h2 with ⟨jn, jd, c, pa, v, hmem, hcomp, hne, hpa, hv, hnone⟩
            rcases List.mem_cons.mp hmem with heq | hmem2
            · exfalso
              rw [Prod.mk.injEq] at heq
              rw [heq.2] at hcomp
              rw [hc] at hcomp
              rw [Option.some.injEq] at hcomp
              rw [← hcomp] at hpa
              rw [hp] at hpa
              rw [Option.some.injEq] at hpa
              subst hpa
              rw [hver] at hv
              rw [Option.some.injEq] at hv
              subst hv
              rw [List.findSome?_eq_none_iff.mpr
                (fun ver hver2 => hnone (pa0.registry.getD registry_name) ver hver2)]
                at hF
              exact Option.noConfusion hF
            · exact ⟨jn, jd, c, pa, v, hmem2, hcomp, hne, hpa, hv, hnone⟩

/-- Claim C6: a pipeline component spec containing a job whose component
dependency does not resolve at any tried version fails to publish: the
asset is appended to the failure list, no creation command is issued,
and the spec file on disk is left unmodified — the rewritten jobs are
persisted only after every job has resolved, so there are no partial
writes. -/
theorem c6_no_partial_writes (o : Registry)
    (create_list : AssetType → List String) (registry_name passed_version : String)
    (asset : AssetCfg) (d : PipelineSpecIn)
    (htype : asset.type = .component)
    (hct : asset.componentType = some "pipeline")
    (hspec : asset.spec = .pipelineSpec d)
    (hin : "*" ∈ create_list asset.type ∨ asset.name ∈ create_list asset.type)
    (hnex : o.details "component" asset.name asset.version registry_name = none)
    (H1 : ∀ jn jd c, (jn, jd) ∈ d.jobs → jd.component = some c → c ≠ "" →
      ∀ pa, get_parsed_details_from_asset_uri "component" c = some pa →
        pa.version.isSome)
    (H2 : ∃ jn jd c pa v, (jn, jd) ∈ d.jobs ∧ jd.component = some c ∧ c ≠ "" ∧
      get_parsed_details_from_asset_uri "component" c = some pa ∧
      pa.version = some v ∧
      ∀ r ver, ver ∈ versionsToTry v passed_version →
        o.details "component" pa.name ver r = none) :
    validate_and_prepare_pipeline_component o d passed_version registry_name =
      .failure ∧
    processAsset o create_list registry_name passed_version asset =
      .ok ⟨false, false,
        some (ASSET_ID_TEMPLATE registry_name "components" asset.name
          (finalVersion asset.version passed_version)),
        true, none, false, none⟩ := by
  have hloop := pipeLoop_fails o passed_version d.jobs registry_name [] H1 H2
  have hval : validate_and_prepare_pipeline_component o d passed_version registry_name =
      .failure := by
    unfold validate_and_prepare_pipeline_component
    rw [hloop]
  refine ⟨hval, ?_⟩
  obtain ⟨t, n, v, ct, sp⟩ := asset
  simp only at htype hct hspec hin hnex
  subst htype
  subst hct
  subst hspec
  unfold processAsset
  simp [hin, hnex, hval, AssetType.value, pluralize_asset_type]

/-- Witness for C6: a one-job pipeline whose dependency exists nowhere,
against the empty registry. -/
theorem c6_no_partial_writes_witness :
    validate_and_prepare_pipeline_component oEmpty pipeMissing "" "tgt" = .failure ∧
    processAsset oEmpty clAll "tgt" "" cfgPipeMissing =
      .ok ⟨false, false,
        some (ASSET_ID_TEMPLATE "tgt" "components" "pc" (finalVersion "1" "")),
        true, none, false, none⟩ := by
  refine c6_no_partial_writes oEmpty clAll "tgt" "" cfgPipeMissing pipeMissing
    rfl rfl rfl (Or.inl (by decide)) rfl ?_ ?_
  · intro jn jd c hm hc hne pa hpa
    simp only [pipeMissing, List.mem_singleton] at hm
    rw [Prod.mk.injEq] at hm
    rw [hm.2] at hc
    simp only [Option.some.injEq] at hc
    subst hc
    have hval : get_parsed_details_from_asset_uri "component" "c:1" =
        some ⟨"c", some "1", none, none⟩ := by decide
    rw [hval] at hpa
    rw [Option.some.injEq] at hpa
    subst hpa
    decide
  · refine ⟨"j", ⟨some "c:1"⟩, "c:1", ⟨"c", some "1", none, none⟩, "1",
      by simp [pipeMissing], rfl, by decide, by decide, rfl, ?_⟩
    intro r ver _
    rfl

/-- Helper for claim C8: an element of the class-flattened list comes
from some class list of the input. -/
theorem mem_of_mem_flattenByClass {α : Type} {result : List (List α)} {p : Nat × α}
    (hp : p ∈ flattenByClass result) : ∃ cls ∈ result, p.2 ∈ cls := by
  unfold flattenByClass at hp
  rw [List.mem_flatten] at hp
  obtain ⟨L, hL, hpL⟩ := hp
  rw [List.mem_map] at hL
  obtain ⟨q, hq, rfl⟩ := hL
  rw [List.mem_map] at hpL
  obtain ⟨b, hb, rfl⟩ := hpL
  exact ⟨q.2, List.snd_mem_of_mem_enum hq, hb⟩

/-- Helper for claim C8: division by an image dimension of at least 1
sends an in-bounds coordinate into the unit interval. -/
theorem div_mem_unit {x w : ℚ} (hw : 1 ≤ w) (h0 : 0 ≤ x) (h1 : x ≤ w) :
    unitInterval01 (x / w) := by
  have hw0 : (0 : ℚ) < w := lt_of_lt_of_le one_pos hw
  exact ⟨div_nonneg h0 (le_of_lt hw0), (div_le_one hw0).mpr h1⟩

/-- Helper for claim C8: every coordinate of a normalized polygon whose
points lie within the image is in the unit interval. -/
theorem normalize_polygon_bounds {w h : ℚ} (hw : 1 ≤ w) (hh : 1 ≤ h)
    (polygon : List (List (ℚ × ℚ)))
    (hb : ∀ seg ∈ polygon, pointsInBounds seg w h) :
    ∀ seg ∈ normalize_polygon polygon (w, h), ∀ c ∈ seg, unitInterval01 c := by
  intro seg hseg c hcs
  unfold normalize_polygon at hseg
  rw [List.mem_map] at hseg
  obtain ⟨points, hpoints, rfl⟩ := hseg
  rw [List.mem_flatten] at hcs
  obtain ⟨l, hl, hcl⟩ := hcs
  rw [List.mem_map] at hl
  obtain ⟨q, hq, rfl⟩ := hl
  have hbq := hb points hpoints q hq
  rcases List.mem_pair.mp hcl with rfl | rfl
  · exact div_mem_unit hw hbq.1 hbq.2.1
  · exact div_mem_unit hh hbq.2.2.1 hbq.2.2.2

/-- Claim C8, amended: for an image of width and height at least 1 and
raw detections whose bounding-box and polygon coordinates lie within the
image, every coordinate of the inference output is the raw value divided
by the image width or height and lies in `[0, 1]`.  (The code performs
no clamping, so raw detector output outside the image produces output
coordinates outside the unit interval.) -/
theorem c8_normalized_bounds (classes : Nat → String) (w h : ℚ)
    (hw : 1 ≤ w) (hh : 1 ≤ h) :
    (∀ result : List (List RawBox),
      (∀ cls ∈ result, ∀ b ∈ cls, rawBoxInBounds b w h) →
      ∀ ob ∈ process_object_detection_single classes result (w, h),
        odBoxNormalized ob ∧
        ∃ p ∈ flattenByClass result,
          ob.topX = p.2.x0 / w ∧ ob.topY = p.2.y0 / h ∧
          ob.bottomX = p.2.x1 / w ∧ ob.bottomY = p.2.y1 / h) ∧
    (∀ polygon : List (List (ℚ × ℚ)),
      (∀ seg ∈ polygon, pointsInBounds seg w h) →
      ∀ seg ∈ normalize_polygon polygon (w, h), ∀ c ∈ seg, unitInterval01 c) ∧
    (∀ dets : List (List (RawBox × List (List (ℚ × ℚ)))),
      (∀ cls ∈ dets, ∀ pr ∈ cls, rawBoxInBounds pr.1 w h ∧
        ∀ seg ∈ pr.2, pointsInBounds seg w h) →
      ∀ ib ∈ process_instance_segmentation_single classes dets (w, h),
        unitInterval01 ib.topX ∧ unitInterval01 ib.topY ∧
        unitInterval01 ib.bottomX ∧ unitInterval01 ib.bottomY ∧
        ∀ seg ∈ ib.polygon, ∀ c ∈ seg, unitInterval01 c) := by
  refine ⟨?_, fun polygon hb => normalize_polygon_bounds hw hh polygon hb, ?_⟩
  · intro result hb ob hob
    unfold process_object_detection_single at hob
    rw [List.mem_map] at hob
    obtain ⟨p, hp, rfl⟩ := hob
    obtain ⟨cls, hcls, hmem⟩ := mem_of_mem_flattenByClass hp
    have hbb := hb cls hcls p.2 hmem
    refine ⟨⟨div_mem_unit hw hbb.1 hbb.2.1, div_mem_unit hh hbb.2.2.1 hbb.2.2.2.1,
      div_mem_unit hw hbb.2.2.2.2.1 hbb.2.2.2.2.2.1,
      div_mem_unit hh hbb.2.2.2.2.2.2.1 hbb.2.2.2.2.2.2.2⟩,
      p, hp, rfl, rfl, rfl, rfl⟩
  · intro dets hb ib hib
    unfold process_instance_segmentation_single at hib
    rw [List.mem_filterMap] at hib
    obtain ⟨p, hp, hsome⟩ := hib
    by_cases hlen : 0 < (remove_invalid_segments p.2.2).length
    · rw [if_pos hlen] at hsome
      rw [Option.some.injEq] at hsome
      obtain ⟨cls, hcls, hmem⟩ := mem_of_mem_flattenByClass hp
      obtain ⟨hbb, hpoly⟩ := hb cls hcls p.2 hmem
      subst hsome
      refine ⟨div_mem_unit hw hbb.1 hbb.2.1, div_mem_unit hh hbb.2.2.1 hbb.2.2.2.1,
        div_mem_unit hw hbb.2.2.2.2.1 hbb.2.2.2.2.2.1,
        div_mem_unit hh hbb.2.2.2.2.2.2.1 hbb.2.2.2.2.2.2.2, ?_⟩
      refine normalize_polygon_bounds hw hh _ ?_
      intro seg hseg
      unfold remove_invalid_segments at hseg
      exact hpoly seg (List.mem_of_mem_filter hseg)
    · rw [if_neg hlen] at hsome
      exact absurd hsome (by simp)

/-- Witness for C8 at a concrete in-bounds box and polygon. -/
theorem c8_normalized_bounds_witness :
    (∀ ob ∈ process_object_detection_single (fun _ => "cat")
        [[⟨2, 3, 5, 7, 1⟩]] (10, 10),
      odBoxNormalized ob ∧
      ∃ p ∈ flattenByClass [[(⟨2, 3, 5, 7, 1⟩ : RawBox)]],
        ob.topX = p.2.x0 / 10 ∧ ob.topY = p.2.y0 / 10 ∧
        ob.bottomX = p.2.x1 / 10 ∧ ob.bottomY = p.2.y1 / 10) ∧
    (∀ seg ∈ normalize_polygon [[(1, 2), (3, 4), (5, 6)]] ((10 : ℚ), (10 : ℚ)),
      ∀ c ∈ seg, unitInterval01 c) := by
  have hmain := c8_normalized_bounds (fun _ => "cat") 10 10 (by norm_num) (by norm_num)
  refine ⟨hmain.1 [[⟨2, 3, 5, 7, 1⟩]] ?_, hmain.2.1 [[(1, 2), (3, 4), (5, 6)]] ?_⟩
  · intro cls hc b hbm
    rw [List.mem_singleton] at hc
    subst hc
    rw [List.mem_singleton] at hbm
    subst hbm
    refine ⟨by norm_num, by norm_num, by norm_num, by norm_num,
      by norm_num, by norm_num, by norm_num, by norm_num⟩
  · intro seg hs q hq
    rw [List.mem_singleton] at hs
    subst hs
    simp only [List.mem_cons] at hq
    rcases hq with rfl | rfl | rfl | h
    · exact ⟨by norm_num, by norm_num, by norm_num, by norm_num⟩
    · exact ⟨by norm_num, by norm_num, by norm_num, by norm_num⟩
    · exact ⟨by norm_num, by norm_num, by norm_num, by norm_num⟩
    · exact absurd h (List.not_mem_nil _)

/-- Claim C9: `_remove_invalid_segments` filters on `len(segment)`, which
counts the contour's *points*, while its own docstring declares a segment
valid when it has at least 6 *coordinates* — explicitly calling a
triangle valid.  A triangle contour (3 points = 6 coordinates) is
dropped, and a detection whose mask yields only that contour disappears
from the instance-segmentation output entirely. -/
theorem c9_triangle_code_bug :
    remove_invalid_segments [triangleSegment] = [] ∧
    2 * triangleSegment.length = 6 ∧
    process_instance_segmentation_single (fun _ => "cat")
      [[(⟨1, 2, 3, 4, 1/2⟩, [triangleSegment])]] (10, 10) = [] := by
  refine ⟨by decide, by decide, ?_⟩
  simp [process_instance_segmentation_single, flattenByClass, remove_invalid_segments,
    triangleSegment]

/-! ## Matcher lemmas for the C5 round trip -/

theorem stripPre_append (s t : List Char) : stripPre s (s ++ t) = some t := by
  induction s with
  | nil => rfl
  | cons c s ih => simp [stripPre, ih]

theorem stripPre_eq_some_iff {s t r : List Char} :
    stripPre s t = some r ↔ t = s ++ r := by
  induction s generalizing t with
  | nil => simp [stripPre]
  | cons c s ih =>
    cases t with
    | nil => simp [stripPre]
    | cons d t =>
      by_cases h : c = d
      · subst h
        rw [stripPre, if_pos rfl, List.cons_append]
        simp [ih]
      · have h2 : d ≠ c := Ne.symm h
        rw [stripPre, if_neg h, List.cons_append]
        simp [h2]

theorem stripPre_head_ne {c : Char} {s t : List Char} (h : t.head? ≠ some c) :
    stripPre (c :: s) t = none := by
  cases t with
  | nil => rfl
  | cons d t =>
    have hcd : c ≠ d := by
      intro hh
      exact h (by rw [List.head?_cons, hh])
    rw [stripPre, if_neg hcd]

theorem stripPre_none_of_mem {c : Char} {s t : List Char} (hs : c ∈ s) (ht : c ∉ t) :
    stripPre s t = none := by
  rcases hst : stripPre s t with _ | r
  · rfl
  · exfalso
    rw [stripPre_eq_some_iff] at hst
    have : c ∈ s ++ r := List.mem_append.mpr (Or.inl hs)
    rw [← hst] at this
    exact ht this

theorem stripPre_slash_align {p n w v : List Char} (hp : '/' ∉ p) (hn : '/' ∉ n) :
    stripPre (p ++ '/' :: w) (n ++ '/' :: v) =
      if p = n then stripPre w v else none := by
  induction p generalizing n with
  | nil =>
    cases n with
    | nil => simp [stripPre]
    | cons d n =>
      have hd : ('/' : Char) ≠ d := by
        intro hh
        exact hn (by rw [List.mem_cons]; exact Or.inl hh)
      rw [List.nil_append, List.cons_append, stripPre, if_neg hd,
        if_neg (by simp)]
  | cons c p ih =>
    have hc2 : '/' ∉ p := fun hh => hp (List.mem_cons_of_mem c hh)
    have hc : c ≠ '/' := by
      intro hh
      exact hp (by rw [List.mem_cons]; exact Or.inl hh.symm)
    cases n with
    | nil =>
      rw [List.cons_append, List.nil_append, stripPre, if_neg hc,
        if_neg (by simp)]
    | cons d n =>
      have hn2 : '/' ∉ n := fun hh => hn (List.mem_cons_of_mem d hh)
      by_cases hcd : c = d
      · subst hcd
        rw [List.cons_append, List.cons_append, stripPre, if_pos rfl, ih hc2 hn2]
        by_cases hpn : p = n
        · subst hpn
          rw [if_pos rfl, if_pos rfl]
        · rw [if_neg hpn, if_neg (fun hh => hpn (by injection hh))]
      · rw [List.cons_append, List.cons_append, stripPre, if_neg hcd,
          if_neg (fun hh => hcd (by injection hh))]

theorem head?_ne_of_not_mem {c : Char} {l : List Char} (h : c ∉ l) :
    l.head? ≠ some c := by
  cases l with
  | nil => simp
  | cons d t =>
    rw [List.head?_cons]
    intro hh
    rw [Option.some.injEq] at hh
    exact h (by rw [List.mem_cons]; exact Or.inl hh.symm)

theorem head?_append_of_ne_nil {α : Type} {r B : List α} (h : r ≠ []) :
    (r ++ B).head? = r.head? := by
  cases r with
  | nil => exact absurd rfl h
  | cons a r => rfl

theorem rmatch_lit_none {s inp : List Char} {caps : Caps} {k}
    (h : stripPre s inp = none) : rmatch (.lit s) inp caps k = none := by
  rw [rmatch, h]

theorem rmatch_lit_some {s inp rest : List Char} {caps : Caps} {k}
    (h : stripPre s inp = some rest) : rmatch (.lit s) inp caps k = k rest caps := by
  rw [rmatch, h]

theorem rmatch_seq_lit_none {s : List Char} {b : RE} {inp : List Char} {caps : Caps} {k}
    (h : stripPre s inp = none) : rmatch (.seq (.lit s) b) inp caps k = none := by
  rw [rmatch]
  exact rmatch_lit_none h

theorem rmatch_seq_lit_some {s : List Char} {b : RE} {inp rest : List Char} {caps : Caps}
    {k} (h : stripPre s inp = some rest) :
    rmatch (.seq (.lit s) b) inp caps k = rmatch b rest caps k := by
  rw [rmatch]
  exact rmatch_lit_some h

theorem rmatch_alt_none {a b : RE} {inp : List Char} {caps : Caps} {k}
    (ha : rmatch a inp caps k = none) (hb : rmatch b inp caps k = none) :
    rmatch (.alt a b) inp caps k = none := by
  rw [rmatch, ha, hb]

theorem rmatch_alt_first {a b : RE} {inp : List Char} {caps : Caps} {k} {r : Caps}
    (ha : rmatch a inp caps k = some r) :
    rmatch (.alt a b) inp caps k = some r := by
  rw [rmatch, ha]

theorem attemptLen_none (i : Nat) (inp : List Char) (caps : Caps) (k) (m : Nat)
    (h : ∀ caps2, k (inp.drop m) caps2 = none) :
    attemptLen i inp caps k m = none := by
  unfold attemptLen
  split
  · rfl
  · exact h _

theorem attemptLen_exact (i : Nat) (A B : List Char) (caps : Caps) (k)
    (hn : '\n' ∉ A) :
    attemptLen i (A ++ B) caps k A.length = k B ((i, A) :: caps) := by
  unfold attemptLen
  rw [List.take_left, List.drop_left, if_neg hn]

theorem tryLens_eq_of_fail_above (i : Nat) (inp : List Char) (caps : Caps) (k)
    (n₀ : Nat) : ∀ fuel, n₀ ≤ fuel →
    (∀ m, n₀ < m → m ≤ fuel → attemptLen i inp caps k m = none) →
    tryLens i inp caps k fuel = tryLens i inp caps k n₀ := by
  intro fuel
  induction fuel with
  | zero =>
    intro hle _
    rw [Nat.le_zero.mp hle]
  | succ f ihf =>
    intro hle hfail
    rcases Nat.eq_or_lt_of_le hle with heq | hlt
    · rw [heq]
    · rw [tryLens, hfail (f + 1) hlt (Nat.le_refl _)]
      exact ihf (Nat.lt_succ_iff.mp hlt)
        (fun m hm hm2 => hfail m hm (Nat.le_succ_of_le hm2))

theorem tryLens_none (i : Nat) (inp : List Char) (caps : Caps) (k) (fuel : Nat)
    (h : ∀ m, 0 < m → m ≤ fuel → attemptLen i inp caps k m = none) :
    tryLens i inp caps k fuel = none := by
  rw [tryLens_eq_of_fail_above i inp caps k 0 fuel (Nat.zero_le _)
    (fun m hm hm2 => h m hm hm2)]
  rfl

theorem rmatch_grp_hit (i : Nat) (inp : List Char) (caps : Caps)
    (k : List Char → Caps → Option Caps) (n₀ : Nat) (r : Caps)
    (hpos : 0 < n₀) (hle : n₀ ≤ inp.length)
    (hfail : ∀ m, n₀ < m → m ≤ inp.length → attemptLen i inp caps k m = none)
    (hhit : attemptLen i inp caps k n₀ = some r) :
    rmatch (.grp i) inp caps k = some r := by
  rw [rmatch, tryLens_eq_of_fail_above i inp caps k n₀ inp.length hle hfail]
  cases n₀ with
  | zero => exact absurd hpos (by omega)
  | succ m => rw [tryLens, hhit]

theorem rmatch_grp_none (i : Nat) (inp : List Char) (caps : Caps) (k)
    (hfail : ∀ m, 0 < m → m ≤ inp.length → attemptLen i inp caps k m = none) :
    rmatch (.grp i) inp caps k = none := by
  rw [rmatch]
  exact tryLens_none i inp caps k inp.length hfail

theorem suffix_append_cases {α : Type} {rest A B : List α} (h : rest <:+ A ++ B) :
    rest <:+ B ∨ ∃ r, r <:+ A ∧ r ≠ [] ∧ rest = r ++ B := by
  induction A with
  | nil => exact Or.inl (by simpa using h)
  | cons a A ihA =>
    rw [List.cons_append] at h
    rcases List.suffix_cons_iff.mp h with heq | hsuf
    · exact Or.inr ⟨a :: A, List.suffix_refl _, by simp, by rw [heq, List.cons_append]⟩
    · rcases ihA hsuf with h1 | ⟨r, hr, hne, rfl⟩
      · exact Or.inl h1
      · exact Or.inr ⟨r, hr.trans (List.suffix_cons a A), hne, rfl⟩

theorem drop_through_cons {A B : List Char} {c : Char} {m : Nat} (h : A.length < m) :
    (A ++ c :: B).drop m = B.drop (m - A.length - 1) := by
  rw [List.drop_append_eq_append_drop, List.drop_eq_nil_of_le (le_of_lt h),
    List.nil_append]
  have h2 : m - A.length = (m - A.length - 1) + 1 := by omega
  conv_lhs => rw [h2]
  rw [List.drop_succ_cons]

/-- The `/(?:versions/(.+)|labels/(.+))` tail fails on any input that
does not start with a slash. -/
theorem tail_fail_headne (rest : List Char) (caps : Caps) (k)
    (h : rest.head? ≠ some '/') : rmatch tailRE rest caps k = none := by
  rw [tailRE, rmatch]
  exact rmatch_lit_none (stripPre_head_ne h)

/-- The tail fails on a slash followed by slash-free input: neither
`versions/` nor `labels/` can be a prefix of a slash-free list. -/
theorem tail_fail_slashV (V : List Char) (hV : '/' ∉ V) (caps : Caps) (k) :
    rmatch tailRE ('/' :: V) caps k = none := by
  rw [tailRE]
  rw [rmatch_seq_lit_some (show stripPre "/".toList ('/' :: V) = some V from
    stripPre_append ['/'] V)]
  exact rmatch_alt_none
    (rmatch_seq_lit_none (stripPre_none_of_mem (by decide) hV))
    (rmatch_seq_lit_none (stripPre_none_of_mem (by decide) hV))

/-- The tail fails on every suffix of `A ++ '/' :: V` when `A` and `V`
are slash-free: the only slash-headed suffix is `'/' :: V` itself, on
which both alternation branches fail. -/
theorem tail_fail_suffix (A V : List Char) (hA : '/' ∉ A) (hVs : '/' ∉ V) :
    ∀ rest, rest <:+ A ++ '/' :: V → ∀ caps k, rmatch tailRE rest caps k = none := by
  intro rest hrest caps k
  rcases suffix_append_cases hrest with h1 | ⟨r, hr, hne, rfl⟩
  · rcases List.suffix_cons_iff.mp h1 with rfl | h2
    · exact tail_fail_slashV V hVs caps k
    · exact tail_fail_headne _ _ _
        (head?_ne_of_not_mem (fun hm => hVs (h2.subset hm)))
  · refine tail_fail_headne _ _ _ ?_
    rw [head?_append_of_ne_nil hne]
    exact head?_ne_of_not_mem (fun hm => hA (hr.subset hm))

/-- The tail succeeds on `/versions/V`, capturing all of `V` greedily as
group 3. -/
theorem tail_ok (V : List Char) (hVne : V ≠ []) (hVn : '\n' ∉ V) (caps : Caps) :
    rmatch tailRE ('/' :: ("versions".toList ++ '/' :: V)) caps kEnd =
      some ((3, V) :: caps) := by
  rw [tailRE]
  rw [rmatch_seq_lit_some (show
    stripPre "/".toList ('/' :: ("versions".toList ++ '/' :: V)) =
      some ("versions".toList ++ '/' :: V) from stripPre_append ['/'] _)]
  apply rmatch_alt_first
  have hs : stripPre "versions/".toList ("versions".toList ++ '/' :: V) = some V := by
    have h1 : "versions".toList ++ '/' :: V = ("versions".toList ++ ['/']) ++ V := by
      rw [List.append_assoc]
      rfl
    rw [h1]
    exact stripPre_append _ _
  rw [rmatch_seq_lit_some hs]
  apply rmatch_grp_hit 3 V caps kEnd V.length ((3, V) :: caps)
    (List.length_pos.mpr hVne) (Nat.le_refl _)
  · intro m hm hm2
    omega
  · unfold attemptLen
    rw [List.take_length, List.drop_length, if_neg hVn]
    rfl

/-- The `(.+)` of group 2 followed by the tail fails on `versions/V`:
no split exposes a workable slash. -/
theorem g2t_fail_on_versions (V : List Char) (hVs : '/' ∉ V) (caps : Caps) (k) :
    rmatch g2tRE ("versions".toList ++ '/' :: V) caps k = none := by
  rw [g2tRE, rmatch]
  apply rmatch_grp_none
  intro m hm _
  apply attemptLen_none
  intro caps2
  have hsub : (("versions".toList ++ '/' :: V).drop m) <:+
      ("ersions".toList ++ '/' :: V) := by
    have h1 : ("versions".toList ++ '/' :: V).drop m =
        (("versions".toList ++ '/' :: V).drop 1).drop (m - 1) := by
      rw [List.drop_drop]
      congr 1
      omega
    have h2 : ("versions".toList ++ '/' :: V).drop 1 =
        "ersions".toList ++ '/' :: V := rfl
    rw [h1, h2]
    exact List.drop_suffix _ _
  exact tail_fail_suffix "ersions".toList V (by decide) hVs _ hsub caps2 k

/-- The group-2-plus-tail pattern on `N/versions/V` captures `N` as
group 2 and `V` as group 3. -/
theorem g2t_ok (N V : List Char)
    (hNne : N ≠ []) (_hNs : '/' ∉ N) (hNn : '\n' ∉ N)
    (hVne : V ≠ []) (hVs : '/' ∉ V) (hVn : '\n' ∉ V) (caps : Caps) :
    rmatch g2tRE (N ++ '/' :: ("versions".toList ++ '/' :: V)) caps kEnd =
      some ((3, V) :: (2, N) :: caps) := by
  rw [g2tRE, rmatch]
  apply rmatch_grp_hit 2 _ _ _ N.length ((3, V) :: (2, N) :: caps)
    (List.length_pos.mpr hNne) (List.prefix_append N _).length_le
  · intro m hm _
    apply attemptLen_none
    intro caps2
    rw [drop_through_cons hm]
    exact tail_fail_suffix "versions".toList V (by decide) hVs _
      (List.drop_suffix _ _) caps2 kEnd
  · rw [attemptLen_exact 2 N ('/' :: ("versions".toList ++ '/' :: V)) caps _ hNn]
    exact tail_ok V hVne hVn ((2, N) :: caps)

/-- The continuation after group 1 of the registry pattern — the literal
`/<plural>/` followed by group 2 and the tail — fails on every suffix of
`P ++ '/' :: (N/versions/V)`: taking more than the registry segment into
group 1 leaves no parse for the rest. -/
theorem k1_fail (P N V : List Char) (hPs : '/' ∉ P) (hPv : P ≠ "versions".toList)
    (hNs : '/' ∉ N) (hVs : '/' ∉ V) :
    ∀ rest, rest <:+ P ++ '/' :: (N ++ '/' :: ("versions".toList ++ '/' :: V)) →
    ∀ caps, rmatch (.seq (.lit ('/' :: P ++ ['/'])) g2tRE) rest caps kEnd = none := by
  intro rest hrest caps
  rcases suffix_append_cases hrest with h1 | ⟨r, hr, hne, rfl⟩
  · rcases List.suffix_cons_iff.mp h1 with rfl | h2
    · -- rest = '/' :: (N ++ '/' :: X): the whole type segment was eaten;
      -- the literal matches only if P = N, and then the rest is versions/V
      -- on which group 2 has no workable split.
      have hstrip : stripPre ('/' :: P ++ ['/'])
          ('/' :: (N ++ '/' :: ("versions".toList ++ '/' :: V))) =
          if P = N then some ("versions".toList ++ '/' :: V) else none := by
        rw [List.cons_append, stripPre, if_pos rfl]
        rw [show (P ++ ['/'] : List Char) = P ++ '/' :: [] from rfl]
        rw [stripPre_slash_align hPs hNs]
        by_cases hpn : P = N
        · rw [if_pos hpn, if_pos hpn]
          rfl
        · rw [if_neg hpn, if_neg hpn]
      by_cases hpn : P = N
      · rw [if_pos hpn] at hstrip
        rw [rmatch_seq_lit_some hstrip]
        exact g2t_fail_on_versions V hVs caps kEnd
      · rw [if_neg hpn] at hstrip
        exact rmatch_seq_lit_none hstrip
    · rcases suffix_append_cases h2 with h3 | ⟨r, hr, hne, rfl⟩
      · rcases List.suffix_cons_iff.mp h3 with rfl | h4
        · -- rest = '/' :: (versions/V): the literal would need P = "versions".
          refine rmatch_seq_lit_none ?_
          rw [List.cons_append, stripPre, if_pos rfl]
          rw [show (P ++ ['/'] : List Char) = P ++ '/' :: [] from rfl]
          rw [stripPre_slash_align hPs (by decide)]
          rw [if_neg hPv]
        · rcases suffix_append_cases h4 with h5 | ⟨r, hr, hne, rfl⟩
          · rcases List.suffix_cons_iff.mp h5 with rfl | h6
            · -- rest = '/' :: V with V slash-free.
              refine rmatch_seq_lit_none ?_
              rw [List.cons_append, stripPre, if_pos rfl]
              exact stripPre_none_of_mem
                (List.mem_append_right P (List.mem_singleton_self '/')) hVs
            · -- rest a suffix of V: not slash-headed.
              refine rmatch_seq_lit_none (stripPre_head_ne ?_)
              exact head?_ne_of_not_mem (fun hm => hVs (h6.subset hm))
          · -- rest = r ++ '/'::V with r a nonempty suffix of "versions".
            refine rmatch_seq_lit_none (stripPre_head_ne ?_)
            rw [head?_append_of_ne_nil hne]
            refine head?_ne_of_not_mem (fun hm => ?_)
            exact absurd (hr.subset hm) (by decide)
      · -- rest = r ++ '/'::X with r a nonempty suffix of N.
        refine rmatch_seq_lit_none (stripPre_head_ne ?_)
        rw [head?_append_of_ne_nil hne]
        exact head?_ne_of_not_mem (fun hm => hNs (hr.subset hm))
  · -- rest = r ++ '/'::T₁ with r a nonempty suffix of P.
    refine rmatch_seq_lit_none (stripPre_head_ne ?_)
    rw [head?_append_of_ne_nil hne]
    exact head?_ne_of_not_mem (fun hm => hPs (hr.subset hm))

/-- The registry pattern, on a well-formed asset ID whose registry,
name and version segments are nonempty, slash-free and newline-free,
captures exactly those segments (greedy backtracking settles on the
canonical split). -/
theorem regRE_roundtrip (P R N V : List Char)
    (_hPne : P ≠ []) (hPs : '/' ∉ P) (_hPn : '\n' ∉ P) (hPv : P ≠ "versions".toList)
    (hRne : R ≠ []) (_hRs : '/' ∉ R) (hRn : '\n' ∉ R)
    (hNne : N ≠ []) (hNs : '/' ∉ N) (hNn : '\n' ∉ N)
    (hVne : V ≠ []) (hVs : '/' ∉ V) (hVn : '\n' ∉ V) :
    rmatch (regRE P)
      ("azureml://registries/".toList ++
        (R ++ '/' :: (P ++ '/' :: (N ++ '/' :: ("versions".toList ++ '/' :: V)))))
      [] kEnd = some [(3, V), (2, N), (1, R)] := by
  rw [regRE, rmatch]
  rw [rmatch_lit_some (stripPre_append _ _)]
  show rmatch (.seq (.grp 1) (.seq (.lit ('/' :: P ++ ['/'])) g2tRE))
    (R ++ '/' :: (P ++ '/' :: (N ++ '/' :: ("versions".toList ++ '/' :: V))))
    [] kEnd = some [(3, V), (2, N), (1, R)]
  rw [rmatch]
  apply rmatch_grp_hit 1 _ _ _ R.length [(3, V), (2, N), (1, R)]
    (List.length_pos.mpr hRne) (List.prefix_append R _).length_le
  · intro m hm _
    apply attemptLen_none
    intro caps2
    rw [drop_through_cons hm]
    exact k1_fail P N V hPs hPv hNs hVs _ (List.drop_suffix _ _) caps2
  · rw [attemptLen_exact 1 R _ [] _ hRn]
    show rmatch (.seq (.lit ('/' :: P ++ ['/'])) g2tRE)
      ('/' :: (P ++ '/' :: (N ++ '/' :: ("versions".toList ++ '/' :: V))))
      [(1, R)] kEnd = some [(3, V), (2, N), (1, R)]
    have hstrip : stripPre ('/' :: P ++ ['/'])
        ('/' :: (P ++ '/' :: (N ++ '/' :: ("versions".toList ++ '/' :: V)))) =
        some (N ++ '/' :: ("versions".toList ++ '/' :: V)) := by
      rw [List.cons_append, stripPre, if_pos rfl]
      have h1 : P ++ '/' :: (N ++ '/' :: ("versions".toList ++ '/' :: V)) =
          (P ++ ['/']) ++ (N ++ '/' :: ("versions".toList ++ '/' :: V)) := by
        rw [List.append_assoc]
        rfl
      rw [h1]
      exact stripPre_append _ _
    rw [rmatch_seq_lit_some hstrip]
    exact g2t_ok N V hNne hNs hNn hVne hVs hVn [(1, R)]

/-- Character-level decomposition of the built asset ID. -/
theorem asset_id_toList (reg plural name ver : String) :
    (ASSET_ID_TEMPLATE reg plural name ver).toList =
      "azureml://registries/".toList ++
        (reg.toList ++ '/' :: (plural.toList ++ '/' ::
          (name.toList ++ '/' :: ("versions".toList ++ '/' :: ver.toList)))) := by
  show ("azureml://registries/" ++ reg ++ "/" ++ plural ++ "/" ++ name ++
    "/versions/" ++ ver).toList = _
  have h : ∀ s t : String, (s ++ t).toList = s.toList ++ t.toList := fun s t => rfl
  rw [h, h, h, h, h, h]
  have h2 : "/".toList = ['/'] := rfl
  have h3 : "/versions/".toList = '/' :: ("versions".toList ++ ['/']) := rfl
  rw [h2, h3]
  simp [List.append_assoc]

/-- Claim C5, amended: the round trip holds for every registry name,
asset type, asset name and version whose strings are nonempty and
contain neither a slash nor a newline: the asset ID built by the ID
template, fed back into the resolver for the same asset type, reproduces
exactly the original name, version and registry, with label absent.
(A slash inside a segment, or an empty segment, breaks the round trip,
as the counterexample shows.) -/
theorem c5_round_trip (t : AssetType) (reg name ver : String)
    (hR : reg.toList ≠ [] ∧ '/' ∉ reg.toList ∧ '\n' ∉ reg.toList)
    (hN : name.toList ≠ [] ∧ '/' ∉ name.toList ∧ '\n' ∉ name.toList)
    (hV : ver.toList ≠ [] ∧ '/' ∉ ver.toList ∧ '\n' ∉ ver.toList) :
    get_parsed_details_from_asset_uri t.value
        (ASSET_ID_TEMPLATE reg (pluralize_asset_type t.value) name ver) =
      some ⟨name, some ver, none, some reg⟩ := by
  have hplural : (pluralize_asset_type t.value).toList ≠ [] ∧
      '/' ∉ (pluralize_asset_type t.value).toList ∧
      '\n' ∉ (pluralize_asset_type t.value).toList ∧
      (pluralize_asset_type t.value).toList ≠ "versions".toList := by
    cases t <;> exact ⟨by decide, by decide, by decide, by decide⟩
  have hmatch := regRE_roundtrip (pluralize_asset_type t.value).toList reg.toList
    name.toList ver.toList hplural.1 hplural.2.1 hplural.2.2.1 hplural.2.2.2
    hR.1 hR.2.1 hR.2.2 hN.1 hN.2.1 hN.2.2 hV.1 hV.2.1 hV.2.2
  have hreg : regMatch t.value
      (ASSET_ID_TEMPLATE reg (pluralize_asset_type t.value) name ver) =
      some [(3, ver.toList), (2, name.toList), (1, reg.toList)] := by
    unfold regMatch pymatch
    rw [asset_id_toList]
    exact hmatch
  unfold get_parsed_details_from_asset_uri
  rw [hreg]
  simp [regExtract, capStr, getCap, List.find?]

/-- Witness for C5 at a concrete slash-free triple. -/
theorem c5_round_trip_witness :
    get_parsed_details_from_asset_uri (AssetType.environment).value
        (ASSET_ID_TEMPLATE "r" (pluralize_asset_type (AssetType.environment).value)
          "n" "1") =
      some ⟨"n", some "1", none, some "r"⟩ :=
  c5_round_trip .environment "r" "n" "1" ⟨by decide, by decide, by decide⟩
    ⟨by decide, by decide, by decide⟩ ⟨by decide, by decide, by decide⟩

end AzuremlAssets
